import Mathlib

/-!
Verification development for the BURGE (Call of Cthulhu 7e variant)
character rules engine: the percentile roller (`cogs/aas/roller.py`),
the rules data tables (`cogs/aas_data.py`), the character store and
advancement state machine (`cogs/AAS.py`), and the Dhole's House
importer/exporter (`cogs/aas_importer.py`).

Python `int` values are embedded as `Nat` where the source only ever
stores non-negative values (characteristics, skill values, rolls, XP)
and as `Int` where the source can go negative (resource `current`
values — HP tracking deliberately allows negatives — and deltas).
Python `//` on non-negative operands is `Nat` division.  Python string
operations are re-implemented structurally over `String.data` so that
every definition evaluates inside the kernel.
-/

namespace AAS

/-! ### String helpers

Structural re-implementations of the Python string operations used by
the engine (`str.lower`, `in`, `str.split("(")[i]`, `str.strip`,
`str.rstrip(")")`, `str.startswith`).  They operate on `String.data`
so that they reduce by `decide`. -/

/-- Lower-case one ASCII character (Python `str.lower` on the alphabets
the tables use). -/
def lowerChar (c : Char) : Char :=
  if 'A' ≤ c ∧ c ≤ 'Z' then Char.ofNat (c.toNat + 32) else c

/-- Python `s.lower()`. -/
def strLower (s : String) : String :=
  ⟨s.data.map lowerChar⟩

/-- Python `c in s` for a single character `c`. -/
def strHasChar (s : String) (c : Char) : Bool :=
  s.data.contains c

/-- Characters of `l` strictly before the first occurrence of `c`
(Python `s.split(c)[0]` when read back as a string). -/
def takeUntilChar (l : List Char) (c : Char) : List Char :=
  match l with
  | [] => []
  | x :: xs => if x = c then [] else x :: takeUntilChar xs c

/-- Characters of `l` strictly after the first occurrence of `c`. -/
def dropPastChar (l : List Char) (c : Char) : List Char :=
  match l with
  | [] => []
  | x :: xs => if x = c then xs else dropPastChar xs c

/-- Python whitespace test for `str.strip` (space, tab, CR, LF). -/
def isSpace (c : Char) : Bool :=
  c = ' ' ∨ c = '\t' ∨ c = '\n' ∨ c = '\r'

/-- Python `s.strip()`. -/
def strTrim (s : String) : String :=
  ⟨((s.data.dropWhile isSpace).reverse.dropWhile isSpace).reverse⟩

/-- Python `s.split("(")[0].strip()`: the part of the name before the
first parenthesis, trimmed. -/
def baseNamePart (s : String) : String :=
  strTrim ⟨takeUntilChar s.data '('⟩

/-- Python `s.split("(")[1]`: the part between the first `(` and the
next `(` (or the end of the string). -/
def afterParenPart (s : String) : String :=
  ⟨takeUntilChar (dropPastChar s.data '(') '('⟩

/-- Python `s.rstrip(")")`. -/
def stripRightParens (s : String) : String :=
  ⟨(s.data.reverse.dropWhile (· = ')')).reverse⟩

/-- Python `a.startswith(b)` is `b.isPrefixOf a` on the character
lists. -/
def strStartsWith (a b : String) : Bool :=
  b.data.isPrefixOf a.data

/-! ### Rules data tables (`cogs/aas_data.py`) -/

/-- `STANDARD_SKILLS`: standard skills with base values, in source
(dict insertion) order.  Skills not in this table are custom
(base 0). -/
def STANDARD_SKILLS : List (String × Nat) :=
  [("Dodge", 0),
   ("Fighting (Brawl)", 25),
   ("Firearms (Handgun)", 20),
   ("Firearms (Rifle/Shotgun)", 25),
   ("Throw", 20),
   ("Library Use", 20),
   ("Listen", 20),
   ("Spot Hidden", 25),
   ("Track", 10),
   ("Charm", 15),
   ("Fast Talk", 5),
   ("Intimidate", 15),
   ("Persuade", 10),
   ("Psychology", 10),
   ("Art/Craft (Any)", 5),
   ("Electrical Repair", 10),
   ("First Aid", 30),
   ("Locksmith", 1),
   ("Mechanical Repair", 10),
   ("Medicine", 1),
   ("Operate Heavy Machinery", 1),
   ("Accounting", 5),
   ("Anthropology", 1),
   ("Appraise", 5),
   ("Archaeology", 1),
   ("Cthulhu Mythos", 0),
   ("History", 5),
   ("Law", 5),
   ("Natural World", 10),
   ("Occult", 5),
   ("Science (Any)", 1),
   ("Language (Own)", 0),
   ("Language (Other)", 1),
   ("Climb", 20),
   ("Drive Auto", 20),
   ("Jump", 20),
   ("Pilot (Any)", 1),
   ("Ride", 5),
   ("Stealth", 20),
   ("Swim", 20),
   ("Credit Rating", 0),
   ("Disguise", 5),
   ("Navigate", 10),
   ("Sleight of Hand", 10),
   ("Survival (Any)", 10)]

/-- `SKILL_ALIASES`: skill-name variations for fuzzy matching. -/
def SKILL_ALIASES : List (String × String) :=
  [("brawl", "Fighting (Brawl)"),
   ("fight", "Fighting (Brawl)"),
   ("handgun", "Firearms (Handgun)"),
   ("pistol", "Firearms (Handgun)"),
   ("rifle", "Firearms (Rifle/Shotgun)"),
   ("shotgun", "Firearms (Rifle/Shotgun)"),
   ("spot", "Spot Hidden"),
   ("library", "Library Use"),
   ("firstaid", "First Aid"),
   ("first-aid", "First Aid"),
   ("mythos", "Cthulhu Mythos"),
   ("elec repair", "Electrical Repair"),
   ("mech repair", "Mechanical Repair"),
   ("heavy machinery", "Operate Heavy Machinery"),
   ("own language", "Language (Own)"),
   ("native language", "Language (Own)")]

/-- Python `dict.get` over an association list. -/
def alistGet (l : List (String × α)) (k : String) : Option α :=
  (l.find? (fun p => p.1 == k)).map (·.2)

/-- `normalize_skill_name`: resolve aliases
(`SKILL_ALIASES.get(skill_name.lower(), skill_name)`). -/
def normalize_skill_name (skill_name : String) : String :=
  (alistGet SKILL_ALIASES (strLower skill_name)).getD skill_name

/-- Membership of a (normalized) name in `STANDARD_SKILLS`. -/
def inStandardSkills (name : String) : Bool :=
  STANDARD_SKILLS.any (fun p => p.1 == name)

/-- `is_standard_skill`: exact table membership after alias
resolution, else a partial prefix match for parameterized skill
families. -/
def is_standard_skill (skill_name : String) : Bool :=
  let normalized := normalize_skill_name skill_name
  if inStandardSkills normalized then true
  else STANDARD_SKILLS.any (fun p => strStartsWith p.1 (baseNamePart normalized))

/-- The eight characteristics (`CHARACTERISTICS`), as a record rather
than a string-keyed dict. -/
structure Characteristics where
  STR : Nat
  CON : Nat
  DEX : Nat
  SIZ : Nat
  POW : Nat
  APP : Nat
  INT : Nat
  EDU : Nat
deriving DecidableEq

/-- `get_skill_base`: base value for a skill — alias resolution, exact
table match (with the `Dodge`/`Language (Own)` derived bases), partial
prefix fallback, else 0 for custom skills.  The `characteristics`
argument is always supplied by the engine's callers. -/
def get_skill_base (skill_name : String) (chars : Characteristics) : Nat :=
  let normalized := normalize_skill_name skill_name
  if inStandardSkills normalized then
    if normalized = "Dodge" then chars.DEX / 2
    else if normalized = "Language (Own)" then chars.EDU
    else (alistGet STANDARD_SKILLS normalized).getD 0
  else
    match STANDARD_SKILLS.find? (fun p => strStartsWith p.1 (baseNamePart normalized)) with
    | some p => p.2
    | none => 0

/-- `calc_hp_max`: HP Max = (CON + SIZ) // 10. -/
def calc_hp_max (con siz : Nat) : Nat := (con + siz) / 10

/-- `calc_mp_max`: MP Max = POW // 5. -/
def calc_mp_max (pow_stat : Nat) : Nat := pow_stat / 5

/-- `calc_sanity_max`: Sanity Max = 99 - Cthulhu Mythos skill (as a
Python int this can go negative when `mythos > 99`). -/
def calc_sanity_max (mythos : Nat) : Int := (99 : Int) - mythos

/-- `calc_major_wound_threshold`: CON // 2. -/
def calc_major_wound_threshold (con : Nat) : Nat := con / 2

/-! ### Success levels (`cogs/aas_data.py`, `get_success_level`) -/

/-- `SuccessLevel` string constants, as an enumeration. -/
inductive SuccessLevel where
  | critical
  | extreme
  | hard
  | regular
  | failure
  | fumble
deriving DecidableEq

/-- `get_success_level`: determine the success level for a d100 roll
against a skill value. -/
def get_success_level (roll : Nat) (skill : Nat) : SuccessLevel :=
  if roll = 1 then .critical
  else if roll = 100 ∨ (skill < 50 ∧ 96 ≤ roll) then .fumble
  else
    let extreme_threshold := max 1 (skill / 5)
    let hard_threshold := max 1 (skill / 2)
    if roll ≤ extreme_threshold then .extreme
    else if roll ≤ hard_threshold then .hard
    else if roll ≤ skill then .regular
    else .failure

/-- Success-tier classification exactly as the specification words it:
Critical on 1; Fumble on 100 or (threshold < 50 and roll in [96,99]);
then Extreme/Hard/Regular by the `max 1` sub-thresholds; else
Failure.  This is the claim-side definition, to be compared with
`get_success_level`. -/
def classifySpec (roll : Nat) (thresholdValue : Nat) : SuccessLevel :=
  if roll = 1 then .critical
  else if roll = 100 ∨ (thresholdValue < 50 ∧ 96 ≤ roll ∧ roll ≤ 99) then .fumble
  else if roll ≤ max 1 (thresholdValue / 5) then .extreme
  else if roll ≤ max 1 (thresholdValue / 2) then .hard
  else if roll ≤ thresholdValue then .regular
  else .failure

/-- `RollResult.is_success` membership test. -/
def SuccessLevel.isSuccess : SuccessLevel → Bool
  | .critical => true
  | .extreme => true
  | .hard => true
  | .regular => true
  | .failure => false
  | .fumble => false

/-! ### Percentile roller (`cogs/aas/roller.py`)

The dice library is an external collaborator: a throw of `Nd10kl1`
returns all `N` face values plus the kept (lowest) one, `kh1` keeps
the highest, and a single `1d10` throw keeps its only die.  The
embedding therefore takes the thrown faces as inputs and recomputes
the kept die from the keep rule. -/

/-- The die kept from the tens throw: the lowest face under a bonus
(`net > 0`, notation `kl1`), the highest under a penalty (`net < 0`,
notation `kh1`), and the single thrown die otherwise.  An empty throw
yields 0, matching `kept_list[0] if kept_list else 0`. -/
def tensKept (net : Int) (tensDice : List Nat) : Nat :=
  if 0 < net then tensDice.min?.getD 0
  else if net < 0 then tensDice.max?.getD 0
  else tensDice.headD 0

/-- Number of tens dice thrown by `roll_d100`: `1 + net` under a net
bonus, `1 + |net|` under a net penalty, exactly one otherwise. -/
def tensDiceCount (bonus_dice penalty_dice : Nat) : Nat :=
  let net : Int := (bonus_dice : Int) - (penalty_dice : Int)
  if 0 < net then 1 + net.toNat
  else if net < 0 then 1 + (-net).toNat
  else 1

/-- `roll_d100` on given die faces: map the units face 10 → 0 and the
kept tens face 10 → 0, then read `tens*10 + units`, with the "00+0"
case giving 100.  The inner `final_roll == 0` fallback mirrors the
source even though it is unreachable after the first test. -/
def roll_d100 (bonus_dice penalty_dice : Nat)
    (unitsDie : Nat) (tensDice : List Nat) : Nat :=
  let units := unitsDie % 10
  let net : Int := (bonus_dice : Int) - (penalty_dice : Int)
  let kept_tens := tensKept net tensDice % 10
  if kept_tens = 0 ∧ units = 0 then 100
  else if kept_tens * 10 + units = 0 then 100
  else kept_tens * 10 + units

/-- Difficulty levels accepted by `skill_check`. -/
inductive Difficulty where
  | regular
  | hard
  | extreme
deriving DecidableEq

/-- The difficulty-adjusted target computed at the top of
`skill_check` (and quoted verbatim in the spec): `regular` keeps the
value, `hard` takes `max(1, value // 2)`, `extreme` takes
`max(1, value // 5)`. -/
def difficultyTarget (d : Difficulty) (value : Nat) : Nat :=
  match d with
  | .regular => value
  | .hard => max 1 (value / 2)
  | .extreme => max 1 (value / 5)

/-- `RollResult` dataclass (display-only fields omitted). -/
structure RollResult where
  roll : Nat
  target : Nat
  success_level : SuccessLevel
  difficulty : Difficulty
  bonus_dice : Nat
  penalty_dice : Nat
  units_roll : Nat
deriving DecidableEq

/-- `RollResult.effective_target`: the target value after difficulty
adjustment, recomputed from the stored nominal `target`. -/
def RollResult.effective_target (r : RollResult) : Nat :=
  if r.difficulty = .hard then max 1 (r.target / 2)
  else if r.difficulty = .extreme then max 1 (r.target / 5)
  else r.target

/-- `skill_check`: compute the difficulty-adjusted target, roll the
percentile dice, and classify the roll against the adjusted target;
the result records the nominal skill value as `target`. -/
def skill_check (skill_value : Nat) (difficulty : Difficulty)
    (bonus_dice penalty_dice : Nat)
    (unitsDie : Nat) (tensDice : List Nat) : RollResult :=
  let target :=
    if difficulty = .hard then max 1 (skill_value / 2)
    else if difficulty = .extreme then max 1 (skill_value / 5)
    else skill_value
  let roll := roll_d100 bonus_dice penalty_dice unitsDie tensDice
  { roll := roll
    target := skill_value
    success_level := get_success_level roll target
    difficulty := difficulty
    bonus_dice := bonus_dice
    penalty_dice := penalty_dice
    units_roll := unitsDie % 10 }

/-! ### Character record (`cogs/AAS.py`)

The persisted JSON document is embedded as a record.  Resource
`current` values are `Int` (HP may legitimately go negative); skill
values, characteristics and XP are `Nat`.  The skills dict is an
association list written through `setSkillEntry`, which preserves
Python-dict update semantics (replace in place, else append).
Timestamps are threaded as opaque strings where a claim needs them and
omitted otherwise. -/

/-- A `{current, max}` resource pool (hp, mp). -/
structure Pool where
  current : Int
  max : Int
deriving DecidableEq

/-- The luck pool `{current, starting}` (it has no `max` key). -/
structure LuckPool where
  current : Int
  starting : Int
deriving DecidableEq

/-- The sanity pool `{current, max, mythos}`. -/
structure SanityPool where
  current : Int
  max : Int
  mythos : Nat
deriving DecidableEq

/-- The `resources` mapping. -/
structure Resources where
  hp : Pool
  mp : Pool
  luck : LuckPool
  sanity : SanityPool
  xp : Nat
deriving DecidableEq

/-- One skills-dict entry.  A missing `extreme` key reads as `false`
(`skill_data.get("extreme", False)`), so it is embedded as a plain
`Bool` field and "key absent" is `extreme := false`. -/
structure SkillEntry where
  value : Nat
  checked : Bool
  eligible : Bool
  custom : Bool
  extreme : Bool
deriving DecidableEq

/-- One changelog entry `{v, ts, note, changes}`. -/
structure ChangelogEntry where
  v : Nat
  ts : String
  note : String
  changes : List String
deriving DecidableEq

/-- The character record. -/
structure Character where
  name : String
  occupation : String
  version : Nat
  characteristics : Characteristics
  resources : Resources
  skills : List (String × SkillEntry)
  major_wound : Bool
  pending : List String
  changelog : List ChangelogEntry
deriving DecidableEq

/-- Python `skills.get(name)`: first entry under the key, if any. -/
def lookupSkill : List (String × SkillEntry) → String → Option SkillEntry
  | [], _ => none
  | p :: s, name => if p.1 = name then some p.2 else lookupSkill s name

/-- Python `name in skills`. -/
def hasSkillKey : List (String × SkillEntry) → String → Bool
  | [], _ => false
  | p :: s, name => if p.1 = name then true else hasSkillKey s name

/-- Python `skills[name] = entry`: replace the entry in place if the
key exists, else append it. -/
def setSkillEntry (skills : List (String × SkillEntry)) (name : String)
    (e : SkillEntry) : List (String × SkillEntry) :=
  if hasSkillKey skills name then
    skills.map (fun p => if p.1 = name then (name, e) else p)
  else skills ++ [(name, e)]

/-- `_recalc_derived`: recompute `hp.max`, `mp.max`, `sanity.max` and
the cached mythos value from characteristics and the Cthulhu Mythos
skill.  Current values are not touched.  (The source's "resource key
missing" branches never fire: every record is created with all
resource keys present.) -/
def recalcDerived (c : Character) : Character :=
  let con := c.characteristics.CON
  let siz := c.characteristics.SIZ
  let pow_stat := c.characteristics.POW
  let mythos := ((lookupSkill c.skills "Cthulhu Mythos").map (·.value)).getD 0
  { c with resources :=
    { c.resources with
      hp := { c.resources.hp with max := (calc_hp_max con siz : Int) }
      mp := { c.resources.mp with max := (calc_mp_max pow_stat : Int) }
      sanity := { c.resources.sanity with
        max := calc_sanity_max mythos
        mythos := mythos } } }

/-- The eight characteristic keys. -/
inductive CharKey where
  | STR | CON | DEX | SIZ | POW | APP | INT | EDU
deriving DecidableEq

/-- Read one characteristic. -/
def CharKey.get (k : CharKey) (c : Characteristics) : Nat :=
  match k with
  | .STR => c.STR
  | .CON => c.CON
  | .DEX => c.DEX
  | .SIZ => c.SIZ
  | .POW => c.POW
  | .APP => c.APP
  | .INT => c.INT
  | .EDU => c.EDU

/-- Write one characteristic. -/
def CharKey.set (k : CharKey) (c : Characteristics) (n : Nat) : Characteristics :=
  match k with
  | .STR => { c with STR := n }
  | .CON => { c with CON := n }
  | .DEX => { c with DEX := n }
  | .SIZ => { c with SIZ := n }
  | .POW => { c with POW := n }
  | .APP => { c with APP := n }
  | .INT => { c with INT := n }
  | .EDU => { c with EDU := n }

/-- Display name of a characteristic key, for pending-change
messages. -/
def CharKey.keyName : CharKey → String
  | .STR => "STR"
  | .CON => "CON"
  | .DEX => "DEX"
  | .SIZ => "SIZ"
  | .POW => "POW"
  | .APP => "APP"
  | .INT => "INT"
  | .EDU => "EDU"

/-- A parsed `!aas set` value: an absolute number or a `+N`/`-N`
delta. -/
inductive NumValue where
  | abs (n : Int)
  | delta (n : Int)
deriving DecidableEq

/-- Apply a parsed value to the old value. -/
def NumValue.apply (old : Int) : NumValue → Int
  | .abs n => n
  | .delta n => old + n

/-- A resource set value: a number/delta or the `max` keyword. -/
inductive ResValue where
  | num (v : NumValue)
  | maxKeyword
deriving DecidableEq

/-- The four pooled resource keys accepted by `!aas set`. -/
inductive ResKey where
  | hp | mp | san | luck
deriving DecidableEq

/-- Display name of a resource key. -/
def ResKey.keyName : ResKey → String
  | .hp => "hp"
  | .mp => "mp"
  | .san => "san"
  | .luck => "luck"

/-- `aas_set` on a characteristic: clamp the result to `[1, 99]`,
recompute derived values, and append a `KEY: old→new` pending
entry. -/
def aas_set_characteristic (c : Character) (k : CharKey) (v : NumValue) :
    Character :=
  let old := k.get c.characteristics
  let new_val := (max 1 (min 99 (v.apply old))).toNat
  let c1 := recalcDerived
    { c with characteristics := k.set c.characteristics new_val }
  { c1 with pending := c1.pending ++
      [k.keyName ++ ": " ++ toString old ++ "→" ++ toString new_val] }

/-- `aas_set` on `xp`: clamp to `≥ 0` and append a pending entry. -/
def aas_set_xp (c : Character) (v : NumValue) : Character :=
  let old := c.resources.xp
  let new_val := (max 0 (v.apply old)).toNat
  { c with
    resources := { c.resources with xp := new_val }
    pending := c.pending ++
      ["xp: " ++ toString old ++ "→" ++ toString new_val] }

/-- `aas_set` on a pooled resource: resolve the new value (absolute,
delta, or the pool's max — `res.get("max", 99)` gives luck an
effective max of 99), clamp it to `[0, max]` except that `hp` is only
capped above, write it back, append a pending entry, and set the
major-wound condition when HP crosses at-or-below `CON // 2` from
above. -/
def aas_set_resource (c : Character) (r : ResKey) (v : ResValue) : Character :=
  let old :=
    match r with
    | .hp => c.resources.hp.current
    | .mp => c.resources.mp.current
    | .san => c.resources.sanity.current
    | .luck => c.resources.luck.current
  let max_val :=
    match r with
    | .hp => c.resources.hp.max
    | .mp => c.resources.mp.max
    | .san => c.resources.sanity.max
    | .luck => (99 : Int)
  let new_raw :=
    match v with
    | .num nv => nv.apply old
    | .maxKeyword => max_val
  let new_val :=
    if r = .hp then min max_val new_raw else max 0 (min max_val new_raw)
  let c1 :=
    match r with
    | .hp => { c with resources := { c.resources with
        hp := { c.resources.hp with current := new_val } } }
    | .mp => { c with resources := { c.resources with
        mp := { c.resources.mp with current := new_val } } }
    | .san => { c with resources := { c.resources with
        sanity := { c.resources.sanity with current := new_val } } }
    | .luck => { c with resources := { c.resources with
        luck := { c.resources.luck with current := new_val } } }
  let c2 := { c1 with pending := c1.pending ++
      [r.keyName ++ ": " ++ toString old ++ "→" ++ toString new_val] }
  if r = .hp ∧ new_val ≤ (calc_major_wound_threshold c.characteristics.CON : Int)
      ∧ (calc_major_wound_threshold c.characteristics.CON : Int) < old then
    { c2 with major_wound := true }
  else c2

/-- `aas_stats`: set all eight characteristics at once.  Values out of
`[1, 99]` are rejected (record unchanged); otherwise derived maxima
are recomputed, `hp`/`mp` currents are set to their maxima,
`sanity.current` is set to POW (without clamping to `sanity.max`), and
luck is zeroed.  No pending entry is appended. -/
def aas_stats (c : Character)
    (str_val con_val dex_val siz_val pow_val app_val int_val edu_val : Nat) :
    Character :=
  let values := [str_val, con_val, dex_val, siz_val, pow_val, app_val,
    int_val, edu_val]
  if values.any (fun v => v < 1 ∨ 99 < v) then c
  else
    let c1 := recalcDerived
      { c with characteristics :=
        ⟨str_val, con_val, dex_val, siz_val, pow_val, app_val, int_val,
          edu_val⟩ }
    { c1 with resources := { c1.resources with
        hp := { c1.resources.hp with current := c1.resources.hp.max }
        mp := { c1.resources.mp with current := c1.resources.mp.max }
        sanity := { c1.resources.sanity with current := (pow_val : Int) }
        luck := ⟨0, 0⟩ } }

/-- `aas_skill`: set a skill value.  The value is clamped to
`[0, 99]`, the name normalized, and the entry rebuilt carrying only
the old `checked`/`eligible` flags and a freshly computed `custom`
flag (so a previously present `extreme` key is dropped).  Sanity max
is recomputed when the normalized name is `Cthulhu Mythos`, and a
pending entry is appended. -/
def aas_skill (c : Character) (skill_name : String) (value : Int) : Character :=
  let value' := (max 0 (min 99 value)).toNat
  let normalized := normalize_skill_name skill_name
  let is_custom := !(is_standard_skill normalized)
  let old_data := lookupSkill c.skills normalized
  let old_val := (old_data.map (·.value)).getD 0
  let entry : SkillEntry :=
    { value := value'
      checked := (old_data.map (·.checked)).getD false
      eligible := (old_data.map (·.eligible)).getD false
      custom := is_custom
      extreme := false }
  let c1 := { c with skills := setSkillEntry c.skills normalized entry }
  let c2 := if normalized = "Cthulhu Mythos" then recalcDerived c1 else c1
  { c2 with pending := c2.pending ++
      [normalized ++ ": " ++ toString old_val ++ "→" ++ toString value'] }

/-- `aas_check`: mark a skill checked for advancement, creating it at
its table base value first when absent.  No pending entry is
appended. -/
def aas_check (c : Character) (skill_name : String) : Character :=
  let normalized := normalize_skill_name skill_name
  match lookupSkill c.skills normalized with
  | none =>
    let is_custom := !(is_standard_skill normalized)
    let base_val :=
      if is_custom then 0 else get_skill_base normalized c.characteristics
    { c with skills :=
        setSkillEntry c.skills normalized ⟨base_val, true, false, is_custom, false⟩ }
  | some e =>
    { c with skills :=
        setSkillEntry c.skills normalized { e with checked := true } }

/-- The auto-check step at the end of `cmd_skill` (the `!skill` roll
command): on any success that was not rolled against a bare base
value, create the entry if needed, set `checked`, and additionally set
`extreme` on an Extreme success.  No pending entry is appended. -/
def cmd_skill_autocheck (c : Character) (normalized : String)
    (skill_value : Nat) (is_custom : Bool) (is_base : Bool)
    (level : SuccessLevel) : Character :=
  if level.isSuccess ∧ ¬ is_base then
    let e0 := (lookupSkill c.skills normalized).getD
      ⟨skill_value, false, false, is_custom, false⟩
    let e1 := { e0 with checked := true }
    let e2 := if level = .extreme then { e1 with extreme := true } else e1
    { c with skills := setSkillEntry c.skills normalized e2 }
  else c

/-- The advancement roll value: one d100, or two d100 keeping the
highest when the `extreme` flag was set (`"2d100kh1"`). -/
def advanceRoll (extreme : Bool) (d1 d2 : Nat) : Nat :=
  if extreme then max d1 d2 else d1

/-- One skill's advancement step inside `aas_advance`: set `eligible`
only when the roll strictly exceeds the current value, then clear the
`checked` and `extreme` marks regardless of outcome.  The value is
never written. -/
def advanceSkill (e : SkillEntry) (roll : Nat) : SkillEntry :=
  let e1 := if e.value < roll then { e with eligible := true } else e
  { e1 with checked := false, extreme := false }

/-- `aas_advance`: run the advancement step over every checked skill,
drawing that skill's d100 results from `dice`.  No pending entry is
appended. -/
def aas_advance (c : Character) (dice : String → Nat × Nat) : Character :=
  { c with skills := c.skills.map (fun p =>
      if p.2.checked then
        (p.1, advanceSkill p.2 (advanceRoll p.2.extreme (dice p.1).1 (dice p.1).2))
      else p) }

/-- Failure modes of `aas_spend`. -/
inductive SpendError where
  | skillNotFound
  | notEligible
  | insufficientXP
deriving DecidableEq

/-- `aas_spend`: spend XP on an eligible skill.  The new value is
capped at 99 and only the actually applied gain is deducted from the
pool; `eligible` is cleared and a pending entry appended.  (For skill
values in the invariant range `value ≤ 99` the `Nat` subtraction
`new_val - old_val` agrees with the source's int subtraction.) -/
def aas_spend (c : Character) (skill_name : String) (amount : Nat) :
    Except SpendError Character :=
  let normalized := normalize_skill_name skill_name
  match lookupSkill c.skills normalized with
  | none => .error .skillNotFound
  | some e =>
    if e.eligible = false then .error .notEligible
    else if c.resources.xp < amount then .error .insufficientXP
    else
      let old_val := e.value
      let new_val := min 99 (old_val + amount)
      let actual_gain := new_val - old_val
      .ok { c with
        skills := setSkillEntry c.skills normalized
          { e with value := new_val, eligible := false }
        resources := { c.resources with xp := c.resources.xp - actual_gain }
        pending := c.pending ++
          [normalized ++ ": " ++ toString old_val ++ "→" ++ toString new_val
            ++ " (advanced)"] }

/-- Failure mode of `aas_save`. -/
inductive SaveError where
  | noPendingChanges
deriving DecidableEq

/-- `aas_save`: fail when nothing is pending; otherwise bump the
version, push a changelog entry carrying the full pending list at the
head, and clear `pending`. -/
def aas_save (c : Character) (note ts : String) : Except SaveError Character :=
  if c.pending = [] then .error .noPendingChanges
  else
    let version := c.version + 1
    let entry : ChangelogEntry :=
      { v := version
        ts := ts
        note := if note = "" then "Session " ++ toString version else note
        changes := c.pending }
    .ok { c with
      version := version
      changelog := entry :: c.changelog
      pending := [] }

/-- `aas_wound`: toggle (no argument) or set (`on`/`off`) the
major-wound condition.  No pending entry is appended. -/
def aas_wound (c : Character) (state : Option Bool) : Character :=
  let new_state :=
    match state with
    | none => !c.major_wound
    | some b => b
  { c with major_wound := new_state }

/-- The `!hp` / `!mp` quick commands (`_resource_command`): the
argument is always a delta; clamp to `[0, max]` except `hp`, which is
only capped above; append a pending entry; HP crossing the
major-wound threshold sets the condition.  (The `!luck` path of the
source raises `KeyError` on its missing `max` key and is not
modelled.) -/
inductive QuickRes where
  | hp | mp
deriving DecidableEq

/-- Display name of a quick-command resource. -/
def QuickRes.keyName : QuickRes → String
  | .hp => "hp"
  | .mp => "mp"

/-- `_resource_command` for `hp`/`mp`. -/
def resource_command (c : Character) (r : QuickRes) (change : Int) : Character :=
  let pool := match r with | .hp => c.resources.hp | .mp => c.resources.mp
  let old := pool.current
  let new_raw := old + change
  let new_val :=
    if r = .hp then min pool.max new_raw else max 0 (min pool.max new_raw)
  let c1 :=
    match r with
    | .hp => { c with resources := { c.resources with
        hp := { c.resources.hp with current := new_val } } }
    | .mp => { c with resources := { c.resources with
        mp := { c.resources.mp with current := new_val } } }
  let c2 := { c1 with pending := c1.pending ++
      [r.keyName ++ ": " ++ toString old ++ "→" ++ toString new_val] }
  if r = .hp ∧ new_val ≤ (calc_major_wound_threshold c.characteristics.CON : Int)
      ∧ (calc_major_wound_threshold c.characteristics.CON : Int) < old then
    { c2 with major_wound := true }
  else c2

/-- The `!san` quick command (`cmd_san`): the change (a signed number
or a rolled dice total) is added and the result clamped to
`[0, sanity.max]`; a pending entry is appended. -/
def cmd_san (c : Character) (change : Int) : Character :=
  let old := c.resources.sanity.current
  let new_val := max 0 (min c.resources.sanity.max (old + change))
  { c with
    resources := { c.resources with
      sanity := { c.resources.sanity with current := new_val } }
    pending := c.pending ++
      ["san: " ++ toString old ++ "→" ++ toString new_val] }

/-! ### Importer / exporter (`cogs/aas_importer.py`)

The Dhole's House document is embedded as a record: the JSON
encode/decode layer (`json.dumps` / `json.loads`) and the
decimal-string layer (`str(value)` / `_safe_int`) are inverse on the
integers the engine writes, so numeric fields appear directly as
integers.  `hitPts` &c. are `Int` because exported HP currents can be
negative; characteristic and skill values are `Nat` as in the
character record. -/

/-- One entry of the external skill list (`{name, subskill?, value,
half, fifth}`).  `subskill := none` models an absent key (which
`skill_entry.get("subskill", "None")` reads back as `"None"`). -/
structure DholesSkill where
  name : String
  subskill : Option String
  value : Nat
  half : Nat
  fifth : Nat
deriving DecidableEq

/-- The external document: investigator personal details,
characteristics block (with resource fields), and the skill list. -/
structure DholesDoc where
  name : String
  occupation : String
  STR : Nat
  CON : Nat
  DEX : Nat
  SIZ : Nat
  POW : Nat
  APP : Nat
  INT : Nat
  EDU : Nat
  hitPts : Int
  hitPtsMax : Int
  magicPts : Int
  magicPtsMax : Int
  luck : Int
  sanity : Int
  sanityMax : Int
  skills : List DholesSkill
deriving DecidableEq

/-- The export-side name split: when the stored name contains both
parentheses, `base = name.split("(")[0].strip()` and
`sub = name.split("(")[1].rstrip(")")`, with a falsy (empty) sub
dropped; otherwise the name is passed through with no subskill. -/
def splitSkillName (name : String) : String × Option String :=
  if strHasChar name '(' ∧ strHasChar name ')' then
    let sub := stripRightParens (afterParenPart name)
    (baseNamePart name, if sub = "" then none else some sub)
  else (name, none)

/-- The import-side name recombination: a present, non-`"None"`,
non-empty subskill is concatenated as `"Base (Subskill)"`. -/
def importFullName (name : String) (subskill : Option String) : String :=
  match subskill with
  | some s => if s ≠ "" ∧ s ≠ "None" then name ++ " (" ++ s ++ ")" else name
  | none => name

/-- One skill entry of the export: the name re-split into base and
subskill, with precomputed half and fifth values. -/
def exportSkill (p : String × SkillEntry) : DholesSkill :=
  { name := (splitSkillName p.1).1
    subskill := (splitSkillName p.1).2
    value := p.2.value
    half := p.2.value / 2
    fifth := p.2.value / 5 }

/-- `export_to_dholes_house`: serialize the character, re-splitting
each skill name and attaching precomputed half/fifth values. -/
def export_to_dholes_house (c : Character) : DholesDoc :=
  { name := c.name
    occupation := c.occupation
    STR := c.characteristics.STR
    CON := c.characteristics.CON
    DEX := c.characteristics.DEX
    SIZ := c.characteristics.SIZ
    POW := c.characteristics.POW
    APP := c.characteristics.APP
    INT := c.characteristics.INT
    EDU := c.characteristics.EDU
    hitPts := c.resources.hp.current
    hitPtsMax := c.resources.hp.max
    magicPts := c.resources.mp.current
    magicPtsMax := c.resources.mp.max
    luck := c.resources.luck.current
    sanity := c.resources.sanity.current
    sanityMax := c.resources.sanity.max
    skills := c.skills.map exportSkill }

/-- The skill-list fold inside `parse_dholes_house_json`: skip
nameless entries, track the Cthulhu Mythos value, and store only
entries with a non-zero value (with a freshly computed `custom`
flag). -/
def importSkillStep (acc : List (String × SkillEntry) × Nat)
    (s : DholesSkill) : List (String × SkillEntry) × Nat :=
  if s.name = "" then acc
  else
    let full_name := importFullName s.name s.subskill
    let mythos := if s.name = "Cthulhu Mythos" then s.value else acc.2
    if 0 < s.value then
      (setSkillEntry acc.1 full_name
        ⟨s.value, false, false, !(is_standard_skill full_name), false⟩, mythos)
    else (acc.1, mythos)

/-- `parse_dholes_house_json` (after JSON decoding): rebuild a fresh
version-1 character from the document, recomputing `hp.max`/`mp.max`
from characteristics when absent (zero), defaulting zero currents to
the maxima, skipping zero-valued skills, and clamping `sanity.max` by
the tracked mythos value.  Returns the character and the stored skill
count. -/
def parse_dholes_house (doc : DholesDoc) : Character × Nat :=
  let characteristics : Characteristics :=
    ⟨doc.STR, doc.CON, doc.DEX, doc.SIZ, doc.POW, doc.APP, doc.INT, doc.EDU⟩
  let hp_max : Int :=
    if doc.hitPtsMax = 0 then (((doc.CON + doc.SIZ) / 10 : Nat) : Int)
    else doc.hitPtsMax
  let mp_max : Int :=
    if doc.magicPtsMax = 0 then ((doc.POW / 5 : Nat) : Int) else doc.magicPtsMax
  let hp_current := if doc.hitPts = 0 then hp_max else doc.hitPts
  let mp_current := if doc.magicPts = 0 then mp_max else doc.magicPts
  let folded := doc.skills.foldl importSkillStep ([], 0)
  let mythos_value := folded.2
  let san_max :=
    if 0 < mythos_value then min doc.sanityMax ((99 : Int) - mythos_value)
    else doc.sanityMax
  ({ name := doc.name
     occupation := doc.occupation
     version := 1
     characteristics := characteristics
     resources :=
       { hp := ⟨hp_current, hp_max⟩
         mp := ⟨mp_current, mp_max⟩
         luck := ⟨doc.luck, doc.luck⟩
         sanity := ⟨doc.sanity, san_max, mythos_value⟩
         xp := 0 }
     skills := folded.1
     major_wound := false
     pending := []
     changelog := [] },
   folded.1.length)

/-! ### Helper lemmas -/

/-- Lookup after a dict replace-in-place, at the replaced key. -/
theorem lookupSkill_map_replace (s : List (String × SkillEntry))
    (n : String) (e : SkillEntry)
    (h : hasSkillKey s n = true) :
    lookupSkill (s.map (fun q => if q.1 = n then (n, e) else q)) n = some e := by
  induction s with
  | nil => simp [hasSkillKey] at h
  | cons p s' ih =>
    rw [List.map_cons]
    by_cases hp : p.1 = n
    · simp [lookupSkill, hp]
    · rw [hasSkillKey, if_neg hp] at h
      simpa [lookupSkill, hp] using ih h

/-- Lookup after a dict replace-in-place, at any other key. -/
theorem lookupSkill_map_replace_ne (s : List (String × SkillEntry))
    (n m : String) (e : SkillEntry) (hmn : m ≠ n) :
    lookupSkill (s.map (fun q => if q.1 = n then (n, e) else q)) m =
      lookupSkill s m := by
  induction s with
  | nil => rfl
  | cons p s' ih =>
    rw [List.map_cons]
    by_cases hp : p.1 = n
    · have hpm : ¬ p.1 = m := fun hc => hmn (hc ▸ hp)
      simp [lookupSkill, hp, hpm, Ne.symm hmn, ih]
    · simp [lookupSkill, hp, ih]

/-- Lookup after a dict append, at the appended key (absent before). -/
theorem lookupSkill_append_single (s : List (String × SkillEntry))
    (n : String) (e : SkillEntry)
    (h : hasSkillKey s n = false) :
    lookupSkill (s ++ [(n, e)]) n = some e := by
  induction s with
  | nil => simp [lookupSkill]
  | cons p s' ih =>
    by_cases hp : p.1 = n
    · rw [hasSkillKey, if_pos hp] at h
      exact absurd h (by simp)
    · rw [hasSkillKey, if_neg hp] at h
      simpa [lookupSkill, hp] using ih h

/-- Lookup after a dict append, at any other key. -/
theorem lookupSkill_append_single_ne (s : List (String × SkillEntry))
    (n m : String) (e : SkillEntry) (hmn : m ≠ n) :
    lookupSkill (s ++ [(n, e)]) m = lookupSkill s m := by
  induction s with
  | nil => simp [lookupSkill, Ne.symm hmn]
  | cons p s' ih =>
    by_cases hp : p.1 = m <;> simp [lookupSkill, hp, ih]

/-- Writing a skill entry makes it visible under its own key. -/
theorem lookupSkill_setSkillEntry_self (s : List (String × SkillEntry))
    (n : String) (e : SkillEntry) :
    lookupSkill (setSkillEntry s n e) n = some e := by
  unfold setSkillEntry
  by_cases h : hasSkillKey s n
  · simpa [h] using lookupSkill_map_replace s n e h
  · simpa [h] using lookupSkill_append_single s n e (by simpa using h)

/-- Writing a skill entry leaves every other key unchanged. -/
theorem lookupSkill_setSkillEntry_ne (s : List (String × SkillEntry))
    (n m : String) (e : SkillEntry) (hmn : m ≠ n) :
    lookupSkill (setSkillEntry s n e) m = lookupSkill s m := by
  unfold setSkillEntry
  by_cases h : hasSkillKey s n
  · simpa [h] using lookupSkill_map_replace_ne s n m e hmn
  · simpa [h] using lookupSkill_append_single_ne s n m e hmn

/-- A non-empty tens throw under a net bonus keeps a lowest die. -/
theorem tensKept_pos (net : Int) (l : List Nat) (hnet : 0 < net)
    (hl : l ≠ []) : tensKept net l ∈ l ∧ ∀ b ∈ l, tensKept net l ≤ b := by
  unfold tensKept
  simp only [hnet, if_true]
  cases hmin : l.min? with
  | none => exact absurd (List.min?_eq_none_iff.mp hmin) hl
  | some m => simpa using List.min?_eq_some_iff'.mp hmin

/-- A non-empty tens throw under a net penalty keeps a highest die. -/
theorem tensKept_neg (net : Int) (l : List Nat) (hnet : net < 0)
    (hl : l ≠ []) : tensKept net l ∈ l ∧ ∀ b ∈ l, b ≤ tensKept net l := by
  unfold tensKept
  have h1 : ¬ (0 < net) := by omega
  simp only [h1, hnet, if_true, if_false]
  cases hmax : l.max? with
  | none => exact absurd (List.max?_eq_none_iff.mp hmax) hl
  | some m => simpa using List.max?_eq_some_iff'.mp hmax

/-- The kept tens die is one of the thrown dice. -/
theorem tensKept_mem (net : Int) (l : List Nat) (hl : l ≠ []) :
    tensKept net l ∈ l := by
  rcases lt_trichotomy net 0 with h | h | h
  · exact (tensKept_neg net l h hl).1
  · cases l with
    | nil => exact absurd rfl hl
    | cons a t => unfold tensKept; simp [h]
  · exact (tensKept_pos net l h hl).1

/-! ### Claim theorems -/

/-- C1.  Success-tier classification: for every roll in [1,100] and
every threshold value, `get_success_level` returns Critical when the
roll is 1 regardless of the threshold; Fumble when the roll is 100 or
(threshold < 50 and roll in [96,99]); otherwise Extreme when
roll ≤ max(1, threshold // 5), else Hard when
roll ≤ max(1, threshold // 2), else Regular when roll ≤ threshold,
else Failure — i.e. it agrees with the spec-side `classifySpec` — and
in particular a roll of 99 against threshold 99 is a Regular
success. -/
theorem get_success_level_matches_spec (roll threshold : Nat)
    (h1 : 1 ≤ roll) (h2 : roll ≤ 100) :
    get_success_level roll threshold = classifySpec roll threshold ∧
    get_success_level 99 99 = .regular := by
  refine ⟨?_, by decide⟩
  have key : (roll = 100 ∨ (threshold < 50 ∧ 96 ≤ roll)) ↔
      (roll = 100 ∨ (threshold < 50 ∧ 96 ≤ roll ∧ roll ≤ 99)) := by omega
  unfold get_success_level classifySpec
  by_cases hc : roll = 1
  · simp [hc]
  · simp only [hc, if_false]
    by_cases hf : roll = 100 ∨ (threshold < 50 ∧ 96 ≤ roll)
    · simp [hf, key.mp hf]
    · simp [hf, key.not.mp hf]

/-- C1 witness: the theorem instantiated at roll 97, threshold 40. -/
theorem get_success_level_matches_spec_witness :
    get_success_level 97 40 = classifySpec 97 40 ∧
    get_success_level 99 99 = .regular :=
  get_success_level_matches_spec 97 40 (by decide) (by decide)

/-- C2.  Percentile roll composition: with `net = bonus − penalty`,
the tens throw uses `1 + |net|` dice (one die when `net = 0`), the
kept die is the lowest thrown die under a net bonus and the highest
under a net penalty, face 10 maps to 0 on both digits, the result is
`tens*10 + units` except 100 when both mapped digits are 0, and the
result always lies in [1, 100]. -/
theorem roll_d100_spec (b p u : Nat) (tens : List Nat)
    (hu1 : 1 ≤ u) (hu2 : u ≤ 10)
    (ht : ∀ t ∈ tens, 1 ≤ t ∧ t ≤ 10)
    (hlen : tens.length = tensDiceCount b p) :
    tensDiceCount b p = 1 + ((b : Int) - p).natAbs ∧
    (1 ≤ roll_d100 b p u tens ∧ roll_d100 b p u tens ≤ 100) ∧
    (0 < (b : Int) - p →
      tensKept ((b : Int) - p) tens ∈ tens ∧
      ∀ t ∈ tens, tensKept ((b : Int) - p) tens ≤ t) ∧
    ((b : Int) - p < 0 →
      tensKept ((b : Int) - p) tens ∈ tens ∧
      ∀ t ∈ tens, t ≤ tensKept ((b : Int) - p) tens) ∧
    ((b : Int) - p = 0 → tens.length = 1) ∧
    roll_d100 b p u tens =
      (if tensKept ((b : Int) - p) tens % 10 = 0 ∧ u % 10 = 0 then 100
       else tensKept ((b : Int) - p) tens % 10 * 10 + u % 10) := by
  have hcount : tensDiceCount b p = 1 + ((b : Int) - p).natAbs := by
    simp only [tensDiceCount]
    split_ifs with h1 h2 <;> omega
  have hne : tens ≠ [] := by
    intro hnil
    rw [hnil, hcount] at hlen
    simp at hlen
    omega
  have hmem : tensKept ((b : Int) - p) tens ∈ tens := tensKept_mem _ _ hne
  have hkb := ht _ hmem
  have hequation : roll_d100 b p u tens =
      (if tensKept ((b : Int) - p) tens % 10 = 0 ∧ u % 10 = 0 then 100
       else tensKept ((b : Int) - p) tens % 10 * 10 + u % 10) := by
    simp only [roll_d100]
    split_ifs <;> omega
  refine ⟨hcount, ?_, fun h => tensKept_pos _ _ h hne,
    fun h => tensKept_neg _ _ h hne, ?_, hequation⟩
  · rw [hequation]
    have hk9 : tensKept ((b : Int) - p) tens % 10 < 10 :=
      Nat.mod_lt _ (by norm_num)
    have hu9 : u % 10 < 10 := Nat.mod_lt _ (by norm_num)
    split_ifs with h
    · omega
    · omega
  · intro h0
    rw [hlen, hcount, h0]
    simp

/-- C2 witness: two bonus dice, units die 7, tens throw [4, 9, 2]. -/
theorem roll_d100_spec_witness :
    1 ≤ roll_d100 2 0 7 [4, 9, 2] ∧ roll_d100 2 0 7 [4, 9, 2] ≤ 100 :=
  (roll_d100_spec 2 0 7 [4, 9, 2] (by decide) (by decide) (by decide)
    (by decide)).2.1

/-- C3.  Difficulty handling: `skill_check` classifies against the
difficulty-adjusted threshold (`v` for regular, `max(1, v//2)` for
hard, `max(1, v//5)` for extreme), stores the nominal value `v` as
`target`, and `effective_target` reports exactly the adjusted
threshold the classifier was given. -/
theorem skill_check_difficulty (v : Nat) (d : Difficulty)
    (b p u : Nat) (tens : List Nat) :
    (skill_check v d b p u tens).target = v ∧
    (skill_check v d b p u tens).effective_target = difficultyTarget d v ∧
    (skill_check v d b p u tens).success_level =
      get_success_level (roll_d100 b p u tens) (difficultyTarget d v) := by
  cases d <;>
    simp [skill_check, RollResult.effective_target, difficultyTarget]

/-- C4 counterexample: a checked skill that was already eligible stays
eligible after a failed advancement roll (30 against value 50), so
"eligible exactly when the roll exceeds the value" is false on the
code. -/
theorem advance_eligible_counterexample :
    (advanceSkill ⟨50, true, true, false, false⟩ (advanceRoll false 30 7)).eligible
        = true ∧
    ¬ (50 < advanceRoll false 30 7) := by decide

/-- C4 (amended).  Advancement roll: the roll is one d100, or the
highest of two when the `extreme` flag is set; the `eligible` flag is
set when the roll strictly exceeds the current value and otherwise
left unchanged (so a previously eligible skill stays eligible even on
a failed roll); the value is untouched; `checked` and `extreme` are
cleared regardless of outcome. -/
theorem advanceSkill_spec (e : SkillEntry) (roll d1 d2 : Nat)
    (hc : e.checked = true) :
    (advanceSkill e roll).eligible = (decide (e.value < roll) || e.eligible) ∧
    (advanceSkill e roll).value = e.value ∧
    (advanceSkill e roll).checked = false ∧
    (advanceSkill e roll).extreme = false ∧
    advanceRoll true d1 d2 = max d1 d2 ∧
    advanceRoll false d1 d2 = d1 := by
  unfold advanceSkill advanceRoll
  by_cases h : e.value < roll <;> simp [h]

/-- C4 witness: a checked skill at value 20 passing with a roll of
55 becomes eligible. -/
theorem advanceSkill_spec_witness :
    (advanceSkill ⟨20, true, false, false, true⟩ 55).eligible = true := by
  have h := advanceSkill_spec ⟨20, true, false, false, true⟩ 55 3 9 rfl
  simpa using h.1

/-- A concrete character record for witnesses: Harvey Walters with
the scenario characteristics from the spec, parameterized by skills,
pending list and XP pool. -/
def mkCharacter (skills : List (String × SkillEntry)) (pending : List String)
    (xp : Nat) : Character :=
  { name := "Harvey Walters"
    occupation := "Professor"
    version := 1
    characteristics := ⟨40, 50, 45, 60, 65, 55, 80, 85⟩
    resources :=
      { hp := ⟨11, 11⟩
        mp := ⟨13, 13⟩
        luck := ⟨0, 0⟩
        sanity := ⟨65, 99, 0⟩
        xp := xp }
    skills := skills
    major_wound := false
    pending := pending
    changelog := [] }

/-- C5.  XP spend on an eligible skill at value `v ≤ 99` with request
`amount ≥ 1`: the operation fails with InsufficientXP exactly when the
pool is smaller than the request (the record is not rewritten on
failure); otherwise the new value is `min 99 (v + amount)`, only the
actually-applied gain is deducted from the pool (the gain never
exceeds the request), and `eligible` is cleared. -/
theorem aas_spend_spec (c : Character) (skill_name : String) (amount : Nat)
    (e : SkillEntry)
    (he : lookupSkill c.skills (normalize_skill_name skill_name) = some e)
    (helig : e.eligible = true)
    (hamt : 1 ≤ amount)
    (hval : e.value ≤ 99) :
    (aas_spend c skill_name amount = .error .insufficientXP ↔
      c.resources.xp < amount) ∧
    (amount ≤ c.resources.xp →
      ∃ c', aas_spend c skill_name amount = .ok c' ∧
        lookupSkill c'.skills (normalize_skill_name skill_name) =
          some { e with value := min 99 (e.value + amount), eligible := false } ∧
        c'.resources.xp + (min 99 (e.value + amount) - e.value) =
          c.resources.xp ∧
        min 99 (e.value + amount) - e.value ≤ amount) := by
  have hne : ¬ e.eligible = false := by simp [helig]
  constructor
  · by_cases hxp : c.resources.xp < amount
    · simp [aas_spend, he, hne, hxp]
    · simp [aas_spend, he, hne, hxp]
  · intro hxp
    have hxp' : ¬ c.resources.xp < amount := by omega
    have hstep : aas_spend c skill_name amount = .ok
        { c with
          skills := setSkillEntry c.skills (normalize_skill_name skill_name)
            { e with value := min 99 (e.value + amount), eligible := false }
          resources := { c.resources with
            xp := c.resources.xp - (min 99 (e.value + amount) - e.value) }
          pending := c.pending ++
            [normalize_skill_name skill_name ++ ": " ++ toString e.value ++ "→"
              ++ toString (min 99 (e.value + amount)) ++ " (advanced)"] } := by
      simp [aas_spend, he, hne, hxp']
    refine ⟨_, hstep, ?_, ?_, ?_⟩
    · simpa using lookupSkill_setSkillEntry_self c.skills
        (normalize_skill_name skill_name)
        { e with value := min 99 (e.value + amount), eligible := false }
    · simp only []
      omega
    · omega

/-- C5 witness: spending 2 XP from a 5-XP pool on eligible Occult
at 40. -/
theorem aas_spend_spec_witness :
    ∃ c', aas_spend (mkCharacter [("Occult", ⟨40, false, true, false, false⟩)]
        [] 5) "Occult" 2 = .ok c' ∧
      lookupSkill c'.skills (normalize_skill_name "Occult") =
        some ⟨min 99 (40 + 2), false, false, false, false⟩ := by
  obtain ⟨c', h1, h2, _, _⟩ :=
    (aas_spend_spec (mkCharacter [("Occult", ⟨40, false, true, false, false⟩)]
        [] 5) "Occult" 2 ⟨40, false, true, false, false⟩ (by decide) rfl
      (by decide) (by decide)).2 (by decide)
  exact ⟨c', h1, h2⟩

/-- C10.  Setting a skill value rebuilds the entry carrying over only
the `checked` and `eligible` flags (with `custom` recomputed from the
normalized name): an entry whose `extreme` flag was set reads back
with `extreme = false` after `aas_skill`, so a later advancement roll
for it takes the single-d100 path. -/
theorem aas_skill_drops_extreme (c : Character) (skill_name : String)
    (value : Int) (e : SkillEntry)
    (he : lookupSkill c.skills (normalize_skill_name skill_name) = some e)
    (hx : e.extreme = true) :
    ∃ e', lookupSkill (aas_skill c skill_name value).skills
        (normalize_skill_name skill_name) = some e' ∧
      e'.extreme = false ∧
      e'.checked = e.checked ∧
      e'.eligible = e.eligible ∧
      e'.value = (max 0 (min 99 value)).toNat ∧
      e'.custom = !(is_standard_skill (normalize_skill_name skill_name)) ∧
      ∀ d1 d2, advanceRoll e'.extreme d1 d2 = d1 := by
  refine ⟨{ value := (max 0 (min 99 value)).toNat
            checked := e.checked
            eligible := e.eligible
            custom := !(is_standard_skill (normalize_skill_name skill_name))
            extreme := false },
    ?_, rfl, rfl, rfl, rfl, rfl, fun d1 d2 => rfl⟩
  by_cases hm : normalize_skill_name skill_name = "Cthulhu Mythos"
  · rw [hm] at he
    simp [aas_skill, he, hm, recalcDerived, lookupSkill_setSkillEntry_self]
  · simp [aas_skill, he, hm, recalcDerived, lookupSkill_setSkillEntry_self]

/-- C10 witness: Occult with the extreme flag set is rebuilt without
it by a subsequent value set. -/
theorem aas_skill_drops_extreme_witness :
    ∃ e', lookupSkill (aas_skill
        (mkCharacter [("Occult", ⟨55, true, false, false, true⟩)] [] 0)
        "Occult" 60).skills (normalize_skill_name "Occult") = some e' ∧
      e'.extreme = false := by
  obtain ⟨e', h1, h2, _⟩ := aas_skill_drops_extreme
    (mkCharacter [("Occult", ⟨55, true, false, false, true⟩)] [] 0)
    "Occult" 60 ⟨55, true, false, false, true⟩ (by decide) rfl
  exact ⟨e', h1, h2⟩

/-- C6.  Session save: `aas_save` fails with NoPendingChanges exactly
when `pending` is empty (leaving the record as loaded); otherwise it
increments `version`, pushes a changelog entry carrying the full
pending list at the head, and clears `pending`; and no other engine
operation on an existing record changes `version` or `changelog`. -/
theorem aas_save_spec (c : Character) (note ts : String) :
    (aas_save c note ts = .error .noPendingChanges ↔ c.pending = []) ∧
    (c.pending ≠ [] → ∃ c',
      aas_save c note ts = .ok c' ∧
      c'.version = c.version + 1 ∧
      (∃ entry : ChangelogEntry,
        c'.changelog = entry :: c.changelog ∧
        entry.v = c.version + 1 ∧
        entry.changes = c.pending) ∧
      c'.pending = []) ∧
    (∀ k v, (aas_set_characteristic c k v).version = c.version ∧
      (aas_set_characteristic c k v).changelog = c.changelog) ∧
    (∀ v, (aas_set_xp c v).version = c.version ∧
      (aas_set_xp c v).changelog = c.changelog) ∧
    (∀ r v, (aas_set_resource c r v).version = c.version ∧
      (aas_set_resource c r v).changelog = c.changelog) ∧
    (∀ a1 a2 a3 a4 a5 a6 a7 a8,
      (aas_stats c a1 a2 a3 a4 a5 a6 a7 a8).version = c.version ∧
      (aas_stats c a1 a2 a3 a4 a5 a6 a7 a8).changelog = c.changelog) ∧
    (∀ name value, (aas_skill c name value).version = c.version ∧
      (aas_skill c name value).changelog = c.changelog) ∧
    (∀ name, (aas_check c name).version = c.version ∧
      (aas_check c name).changelog = c.changelog) ∧
    (∀ n sv ic ib lvl,
      (cmd_skill_autocheck c n sv ic ib lvl).version = c.version ∧
      (cmd_skill_autocheck c n sv ic ib lvl).changelog = c.changelog) ∧
    (∀ dice, (aas_advance c dice).version = c.version ∧
      (aas_advance c dice).changelog = c.changelog) ∧
    (∀ name amount c', aas_spend c name amount = .ok c' →
      c'.version = c.version ∧ c'.changelog = c.changelog) ∧
    (∀ st, (aas_wound c st).version = c.version ∧
      (aas_wound c st).changelog = c.changelog) ∧
    (∀ r ch, (resource_command c r ch).version = c.version ∧
      (resource_command c r ch).changelog = c.changelog) ∧
    (∀ ch, (cmd_san c ch).version = c.version ∧
      (cmd_san c ch).changelog = c.changelog) := by
  refine ⟨?_, ?_, ?_, ?_, ?_, ?_, ?_, ?_, ?_, ?_, ?_, ?_, ?_, ?_⟩
  · by_cases hp : c.pending = [] <;> simp [aas_save, hp]
  · intro hp
    have hstep : aas_save c note ts = .ok
        { c with
          version := c.version + 1
          changelog :=
            ({ v := c.version + 1
               ts := ts
               note := if note = "" then "Session " ++ toString (c.version + 1)
                 else note
               changes := c.pending } : ChangelogEntry) :: c.changelog
          pending := [] } := by
      simp [aas_save, hp]
    exact ⟨_, hstep, rfl, ⟨_, rfl, rfl, rfl⟩, rfl⟩
  · exact fun k v => ⟨rfl, rfl⟩
  · exact fun v => ⟨rfl, rfl⟩
  · intro r v
    cases r <;> simp [aas_set_resource] <;> split_ifs <;> exact ⟨rfl, rfl⟩
  · intro a1 a2 a3 a4 a5 a6 a7 a8
    simp only [aas_stats]
    split_ifs <;> exact ⟨rfl, rfl⟩
  · intro name value
    simp only [aas_skill]
    split_ifs <;> exact ⟨rfl, rfl⟩
  · intro name
    cases h : lookupSkill c.skills (normalize_skill_name name) <;>
      simp [aas_check, h]
  · intro n sv ic ib lvl
    simp only [cmd_skill_autocheck]
    split_ifs <;> exact ⟨rfl, rfl⟩
  · exact fun dice => ⟨rfl, rfl⟩
  · intro name amount c' hok
    cases h : lookupSkill c.skills (normalize_skill_name name) with
    | none => rw [aas_spend, h] at hok; exact absurd hok (by simp)
    | some e =>
      rw [aas_spend, h] at hok
      by_cases h1 : e.eligible = false
      · simp [h1] at hok
      · by_cases h2 : c.resources.xp < amount
        · simp [h1, h2] at hok
        · simp only [h1, h2, if_false] at hok
          obtain rfl := (Except.ok.injEq _ _).mp hok.symm
          exact ⟨rfl, rfl⟩
  · exact fun st => ⟨rfl, rfl⟩
  · intro r ch
    cases r <;> simp [resource_command] <;> split_ifs <;> exact ⟨rfl, rfl⟩
  · exact fun ch => ⟨rfl, rfl⟩

/-- C6 witness: the empty-pending failure at a concrete record. -/
theorem aas_save_spec_witness :
    aas_save (mkCharacter [] [] 0) "n" "t" = .error .noPendingChanges :=
  ((aas_save_spec (mkCharacter [] [] 0) "n" "t").1).mpr rfl

/-- C8 counterexample: on a character whose Cthulhu Mythos skill is
50, the bulk characteristics-set writes `sanity.current := POW = 65`
while recomputing `sanity.max = 49`, leaving the current above the
max — the clamp invariant does not survive `aas_stats`. -/
theorem resource_clamp_counterexample :
    (aas_stats (mkCharacter
        [("Cthulhu Mythos", ⟨50, false, false, false, false⟩)] [] 0)
        40 50 45 60 65 55 80 85).resources.sanity.current = 65 ∧
    (aas_stats (mkCharacter
        [("Cthulhu Mythos", ⟨50, false, false, false, false⟩)] [] 0)
        40 50 45 60 65 55 80 85).resources.sanity.max = 49 ∧
    ¬ ((aas_stats (mkCharacter
        [("Cthulhu Mythos", ⟨50, false, false, false, false⟩)] [] 0)
        40 50 45 60 65 55 80 85).resources.sanity.current ≤
      (aas_stats (mkCharacter
        [("Cthulhu Mythos", ⟨50, false, false, false, false⟩)] [] 0)
        40 50 45 60 65 55 80 85).resources.sanity.max) := by
  decide

/-- C8 (amended).  Resource clamping holds for the operations that
clamp what they write: the single-resource set operation keeps
`mp.current` and `sanity.current` in `[0, max]` and `luck.current` in
`[0, 99]` (its effective max), and caps `hp.current` above by
`hp.max`; the quick delta commands behave the same.  It does not
survive the bulk characteristics-set (which writes `sanity.current :=
POW` unclamped) or import (which copies currents from the
document). -/
theorem resource_clamp_spec (c : Character) (v : ResValue) (ch : Int)
    (hmp : 0 ≤ c.resources.mp.max) (hsan : 0 ≤ c.resources.sanity.max) :
    (0 ≤ (aas_set_resource c .mp v).resources.mp.current ∧
      (aas_set_resource c .mp v).resources.mp.current ≤
        c.resources.mp.max) ∧
    (0 ≤ (aas_set_resource c .san v).resources.sanity.current ∧
      (aas_set_resource c .san v).resources.sanity.current ≤
        c.resources.sanity.max) ∧
    (0 ≤ (aas_set_resource c .luck v).resources.luck.current ∧
      (aas_set_resource c .luck v).resources.luck.current ≤ 99) ∧
    ((aas_set_resource c .hp v).resources.hp.current ≤
      c.resources.hp.max) ∧
    (0 ≤ (resource_command c .mp ch).resources.mp.current ∧
      (resource_command c .mp ch).resources.mp.current ≤
        c.resources.mp.max) ∧
    ((resource_command c .hp ch).resources.hp.current ≤
      c.resources.hp.max) ∧
    (0 ≤ (cmd_san c ch).resources.sanity.current ∧
      (cmd_san c ch).resources.sanity.current ≤
        c.resources.sanity.max) := by
  refine ⟨?_, ?_, ?_, ?_, ?_, ?_, ?_⟩
  · cases v with
    | num nv => cases nv <;> simp [aas_set_resource, NumValue.apply] <;> omega
    | maxKeyword => simp [aas_set_resource] <;> omega
  · cases v with
    | num nv => cases nv <;> simp [aas_set_resource, NumValue.apply] <;> omega
    | maxKeyword => simp [aas_set_resource] <;> omega
  · cases v with
    | num nv => cases nv <;> simp [aas_set_resource, NumValue.apply] <;> omega
    | maxKeyword => simp [aas_set_resource] <;> omega
  · cases v with
    | num nv =>
      cases nv <;> simp [aas_set_resource, NumValue.apply] <;>
        split_ifs <;> simp <;> omega
    | maxKeyword =>
      simp [aas_set_resource] <;> split_ifs <;> simp <;> omega
  · simp [resource_command] <;> omega
  · simp [resource_command] <;> split_ifs <;> simp <;> omega
  · simp [cmd_san] <;> omega

/-- C8 witness: the amended theorem at Harvey Walters (mp.max = 13,
sanity.max = 99) with a −5 delta. -/
theorem resource_clamp_spec_witness :
    0 ≤ (aas_set_resource (mkCharacter [] [] 0) .mp
        (.num (.delta (-5)))).resources.mp.current ∧
      (aas_set_resource (mkCharacter [] [] 0) .mp
        (.num (.delta (-5)))).resources.mp.current ≤
        (mkCharacter [] [] 0).resources.mp.max :=
  (resource_clamp_spec (mkCharacter [] [] 0) (.num (.delta (-5))) 0
    (by decide) (by decide)).1

/-- C9 counterexample: toggling the major-wound condition mutates the
record but appends nothing to `pending` (and the claim's other named
operations, `aas_check` and `aas_advance`, do not append either). -/
theorem pending_append_counterexample :
    (aas_wound (mkCharacter [] [] 0) none).major_wound ≠
      (mkCharacter [] [] 0).major_wound ∧
    (aas_wound (mkCharacter [] [] 0) none).pending =
      (mkCharacter [] [] 0).pending ∧
    (aas_check (mkCharacter [] [] 0) "Occult").skills ≠
      (mkCharacter [] [] 0).skills ∧
    (aas_check (mkCharacter [] [] 0) "Occult").pending =
      (mkCharacter [] [] 0).pending := by
  refine ⟨by decide, by decide, ?_, by decide⟩
  decide

/-- C9 (amended).  The value-writing operations (characteristic,
resource and XP set, skill set, XP spend, and the quick delta
commands) each append one description to `pending`; but marking a
skill checked, the success auto-check, the advancement roll, the bulk
characteristics-set, and the major-wound toggle mutate the record
without appending to `pending`. -/
theorem pending_append_spec (c : Character) :
    (∀ k v, ∃ d, (aas_set_characteristic c k v).pending = c.pending ++ [d]) ∧
    (∀ v, ∃ d, (aas_set_xp c v).pending = c.pending ++ [d]) ∧
    (∀ r v, ∃ d, (aas_set_resource c r v).pending = c.pending ++ [d]) ∧
    (∀ name value, ∃ d, (aas_skill c name value).pending = c.pending ++ [d]) ∧
    (∀ name amount c', aas_spend c name amount = .ok c' →
      ∃ d, c'.pending = c.pending ++ [d]) ∧
    (∀ r ch, ∃ d, (resource_command c r ch).pending = c.pending ++ [d]) ∧
    (∀ ch, ∃ d, (cmd_san c ch).pending = c.pending ++ [d]) ∧
    (∀ name, (aas_check c name).pending = c.pending) ∧
    (∀ n sv ic ib lvl,
      (cmd_skill_autocheck c n sv ic ib lvl).pending = c.pending) ∧
    (∀ dice, (aas_advance c dice).pending = c.pending) ∧
    (∀ a1 a2 a3 a4 a5 a6 a7 a8,
      (aas_stats c a1 a2 a3 a4 a5 a6 a7 a8).pending = c.pending) ∧
    (∀ st, (aas_wound c st).pending = c.pending) := by
  refine ⟨?_, ?_, ?_, ?_, ?_, ?_, ?_, ?_, ?_, ?_, ?_, ?_⟩
  · exact fun k v => ⟨_, rfl⟩
  · exact fun v => ⟨_, rfl⟩
  · intro r v
    cases r <;> simp only [aas_set_resource] <;> split_ifs <;> exact ⟨_, rfl⟩
  · intro name value
    simp only [aas_skill]
    split_ifs <;> exact ⟨_, rfl⟩
  · intro name amount c' hok
    cases h : lookupSkill c.skills (normalize_skill_name name) with
    | none => rw [aas_spend, h] at hok; exact absurd hok (by simp)
    | some e =>
      rw [aas_spend, h] at hok
      by_cases h1 : e.eligible = false
      · simp [h1] at hok
      · by_cases h2 : c.resources.xp < amount
        · simp [h1, h2] at hok
        · simp only [h1, h2, if_false] at hok
          obtain rfl := (Except.ok.injEq _ _).mp hok.symm
          exact ⟨_, rfl⟩
  · intro r ch
    cases r <;> simp only [resource_command] <;> split_ifs <;> exact ⟨_, rfl⟩
  · exact fun ch => ⟨_, rfl⟩
  · intro name
    cases h : lookupSkill c.skills (normalize_skill_name name) <;>
      simp [aas_check, h]
  · intro n sv ic ib lvl
    simp only [cmd_skill_autocheck]
    split_ifs <;> rfl
  · exact fun dice => rfl
  · intro a1 a2 a3 a4 a5 a6 a7 a8
    simp only [aas_stats]
    split_ifs <;> rfl
  · exact fun st => rfl

/-- C9 witness: setting XP on a concrete record appends one pending
entry. -/
theorem pending_append_spec_witness :
    ∃ d, (aas_set_xp (mkCharacter [] [] 0) (.abs 3)).pending =
      (mkCharacter [] [] 0).pending ++ [d] :=
  (pending_append_spec (mkCharacter [] [] 0)).2.1 (.abs 3)

/-- The export-then-import transformation of a stored skill name. -/
def roundTripName (n : String) : String :=
  importFullName (splitSkillName n).1 (splitSkillName n).2

/-- Skills whose round-tripped name differs from `name` never touch
`name`'s slot during the import fold. -/
theorem import_fold_frame (L : List (String × SkillEntry))
    (acc : List (String × SkillEntry) × Nat) (name : String)
    (h : ∀ p ∈ L, roundTripName p.1 ≠ name) :
    lookupSkill
      (L.foldl (fun a q => importSkillStep a (exportSkill q)) acc).1 name =
      lookupSkill acc.1 name := by
  induction L generalizing acc with
  | nil => rfl
  | cons q L' ih =>
    rw [List.foldl_cons]
    rw [ih _ (fun p hp => h p (List.mem_cons_of_mem q hp))]
    have hq := h q (List.mem_cons_self q L')
    simp only [importSkillStep, exportSkill]
    split_ifs <;>
      first
        | rfl
        | exact lookupSkill_setSkillEntry_ne acc.1 _ name _
            (fun hc => hq hc.symm)

/-- The import fold reproduces every non-zero-valued skill whose name
survives the split/recombine round trip, under duplicate-free
keys. -/
theorem import_fold_lookup (L : List (String × SkillEntry)) :
    ∀ acc : List (String × SkillEntry) × Nat,
    (L.map Prod.fst).Nodup →
    (∀ p ∈ L, (splitSkillName p.1).1 ≠ "" ∧ roundTripName p.1 = p.1) →
    ∀ name e, (name, e) ∈ L → 0 < e.value →
    lookupSkill
      (L.foldl (fun a q => importSkillStep a (exportSkill q)) acc).1 name =
      some ⟨e.value, false, false, !(is_standard_skill name), false⟩ := by
  induction L with
  | nil => intro acc _ _ name e hmem; simp at hmem
  | cons q L' ih =>
    intro acc hnodup hprops name e hmem hval
    rw [List.foldl_cons]
    rcases List.mem_cons.mp hmem with heq | hmem'
    · subst heq
      have hq := hprops (name, e) (List.mem_cons_self _ L')
      have hframe : ∀ p ∈ L', roundTripName p.1 ≠ name := by
        intro p hp hc
        rw [List.map_cons] at hnodup
        have hne := (List.nodup_cons.mp hnodup).1
        have hpp : p.1 = name := by
          rw [(hprops p (List.mem_cons_of_mem _ hp)).2] at hc
          exact hc
        have hmm : p.1 ∈ L'.map Prod.fst := List.mem_map_of_mem Prod.fst hp
        rw [hpp] at hmm
        exact hne hmm
      rw [import_fold_frame L' _ name hframe]
      simp only [importSkillStep, exportSkill]
      rw [if_neg hq.1]
      have hfull : importFullName (splitSkillName name).1
          (splitSkillName name).2 = name := hq.2
      rw [hfull, if_pos hval]
      exact lookupSkill_setSkillEntry_self _ _ _
    · exact ih _ (List.nodup_cons.mp hnodup).2
        (fun p hp => hprops p (List.mem_cons_of_mem _ hp)) name e hmem' hval

/-- C7 counterexample: a character storing Occult at value 0 does not
round-trip — export writes the entry but import skips zero-valued
skills, so the re-imported record has no Occult entry at all. -/
theorem roundtrip_counterexample :
    lookupSkill (parse_dholes_house (export_to_dholes_house
        (mkCharacter [("Occult", ⟨0, false, false, false, false⟩)] [] 0))).1.skills
      "Occult" = none ∧
    lookupSkill
        (mkCharacter [("Occult", ⟨0, false, false, false, false⟩)] [] 0).skills
      "Occult" = some ⟨0, false, false, false, false⟩ := by
  exact ⟨by decide, by decide⟩

/-- C7 (amended).  Import of an export reproduces the character's
name and all eight characteristic values exactly, and reproduces the
value of every stored skill whose value is non-zero (import drops
zero-valued entries) and whose name survives the export name split —
a non-empty base part, with base and subskill recombining to the
original name, as holds for all standard skill names; version,
changelog and timestamps are not required to round-trip. -/
theorem import_export_roundtrip (c : Character)
    (hnodup : (c.skills.map Prod.fst).Nodup)
    (hnames : ∀ p ∈ c.skills,
      (splitSkillName p.1).1 ≠ "" ∧ roundTripName p.1 = p.1) :
    (parse_dholes_house (export_to_dholes_house c)).1.name = c.name ∧
    (parse_dholes_house (export_to_dholes_house c)).1.characteristics =
      c.characteristics ∧
    ∀ p ∈ c.skills, p.2.value ≠ 0 →
      ∃ e', lookupSkill
          (parse_dholes_house (export_to_dholes_house c)).1.skills p.1 =
          some e' ∧
        e'.value = p.2.value := by
  refine ⟨rfl, rfl, ?_⟩
  intro p hp hv
  have hskills : (parse_dholes_house (export_to_dholes_house c)).1.skills =
      (c.skills.foldl (fun a q => importSkillStep a (exportSkill q))
        ([], 0)).1 := by
    simp [parse_dholes_house, export_to_dholes_house, List.foldl_map]
  rw [hskills]
  exact ⟨_, import_fold_lookup c.skills ([], 0) hnodup hnames p.1 p.2
    (by simpa using hp) (by omega), rfl⟩

/-- C7 witness: a character with Occult 45 and Fighting (Brawl) 60
round-trips both skill values. -/
theorem import_export_roundtrip_witness :
    ∃ e', lookupSkill (parse_dholes_house (export_to_dholes_house
        (mkCharacter [("Occult", ⟨45, false, false, false, false⟩),
          ("Fighting (Brawl)", ⟨60, false, false, false, false⟩)] [] 0))).1.skills
      "Fighting (Brawl)" = some e' ∧ e'.value = 60 := by
  have h := (import_export_roundtrip
    (mkCharacter [("Occult", ⟨45, false, false, false, false⟩),
      ("Fighting (Brawl)", ⟨60, false, false, false, false⟩)] [] 0)
    (by decide) (by decide)).2.2
    ("Fighting (Brawl)", ⟨60, false, false, false, false⟩)
    (by decide) (by decide)
  exact h

end AAS
